import Mathlib

/-!
Verification development for the `aicontract` repository.

The chunking pipeline (`src/server/services/chunker.js`), the vector-store
service (`src/server/services/rag.js`) and the AI orchestration service
(`services/ai.js`, routes in `routes/documents.js`) are shallowly embedded
below.  Text is modelled as `List Char` (JavaScript strings are sequences of
UTF-16 code units; every character appearing in this development lies in the
Basic Multilingual Plane, where the two notions of length coincide).
JavaScript numbers are modelled as exact integers/rationals; the agreement of
the source's floating-point token formula with the exact formula used here is
discussed at `estimateTokens`.
-/

namespace AC

/-- Characters matched by the source regex `[一-鿿]`
(`chunker.js`, used by `estimateTokens` and `detectLanguage`). -/
def isCJK (c : Char) : Bool := 0x4e00 ≤ c.toNat && c.toNat ≤ 0x9fff

/-- The JavaScript whitespace class `\s` (also the character set removed by
`String.prototype.trim`): space, tab, LF, VT, FF, CR, NBSP, Ogham space,
the U+2000–U+200A range, LS, PS, NNBSP, MMSP, ideographic space and BOM. -/
def isWS (c : Char) : Bool :=
  c.toNat = 0x20 || c.toNat = 0x9 || c.toNat = 0xa || c.toNat = 0xb ||
  c.toNat = 0xc || c.toNat = 0xd || c.toNat = 0xa0 || c.toNat = 0x1680 ||
  (0x2000 ≤ c.toNat && c.toNat ≤ 0x200a) || c.toNat = 0x2028 ||
  c.toNat = 0x2029 || c.toNat = 0x202f || c.toNat = 0x205f ||
  c.toNat = 0x3000 || c.toNat = 0xfeff

/-- JavaScript line terminators, the characters not matched by `.` in a
JavaScript regular expression without the `s` flag. -/
def isLineTerm (c : Char) : Bool :=
  c.toNat = 0xa || c.toNat = 0xd || c.toNat = 0x2028 || c.toNat = 0x2029

/-- Number of CJK characters of a text (`(text.match(/[一-鿿]/g) || []).length`). -/
def cjkCount (s : List Char) : ℕ := (s.filter isCJK).length

/-- Number of non-CJK characters (`text.length - chineseChars` in the source). -/
def otherCount (s : List Char) : ℕ := s.length - cjkCount s

/-- `estimateTokens` from `chunker.js`:
`Math.ceil(chineseChars * 0.7 + otherChars * 0.25)`.

The source evaluates the expression in IEEE-754 double precision.  Writing
`c` and `o` for the two counts, the exact value `(14*c + 5*o)/20` has
denominator `20`; whenever it is not an integer it is at distance at least
`1/20` from the nearest integer, while the floating-point evaluation of
`c*0.7 + o*0.25` differs from the exact value by less than `2^-40` for every
text a JavaScript string can hold, and rounding of a product below an integer
never lands strictly above it.  Hence the double-precision ceiling agrees
with the exact rational ceiling, which is the natural number
`(14*c + 5*o + 19) / 20` used here; the equality with the rational ceiling
expression is proved in `estimateTokens_eq_ceil` below. -/
def estimateTokens (s : List Char) : ℕ :=
  (14 * cjkCount s + 5 * otherCount s + 19) / 20

/-- `detectLanguage` from `chunker.js`:
`chineseChars / text.length > 0.3 ? 'zh' : 'en'`.

The integer comparison `10 * cjk > 3 * len` is equivalent to the rational
comparison `cjk / len > 3/10` for nonempty text (proved in
`detectLanguage_eq_ratio`); for empty text the source compares `NaN > 0.3`,
which is false, matching `10 * 0 > 3 * 0` here. -/
def detectLanguage (s : List Char) : String :=
  if 10 * cjkCount s > 3 * s.length then "zh" else "en"

/-- JavaScript `String.prototype.trim`. -/
def trim (s : List Char) : List Char :=
  ((s.dropWhile isWS).reverse.dropWhile isWS).reverse

/-- Splitting on `/\r?\n/` (`text.split(/\r?\n/)` in `identifyLegalStructure`),
accumulator-passing worker. -/
def splitLinesGo : List Char → List Char → List (List Char)
  | [], acc => [acc.reverse]
  | '\r' :: '\n' :: rest, acc => acc.reverse :: splitLinesGo rest []
  | '\n' :: rest, acc => acc.reverse :: splitLinesGo rest []
  | c :: rest, acc => splitLinesGo rest (c :: acc)

/-- `text.split(/\r?\n/)`. -/
def splitLines (s : List Char) : List (List Char) := splitLinesGo s []

/-! ### Legal-structure patterns (`LEGAL_PATTERNS` in `chunker.js`)

Each regular expression of the source tests a prefix of an already trimmed
line; the character classes involved are pairwise disjoint wherever the
regular expressions could backtrack, so each test is implemented by maximal
munch. -/

/-- The numeral class of the zh `article` pattern: `[一二三四五六七八九十百千零\d]`. -/
def zhArticleNumeral (c : Char) : Bool :=
  c ∈ "一二三四五六七八九十百千零".toList || c.isDigit

/-- The unit class of the zh `article` pattern: `[条章节款项]`. -/
def zhArticleUnit (c : Char) : Bool := c ∈ "条章节款项".toList

/-- zh `article` pattern: `/^第[一二三四五六七八九十百千零\d]+[条章节款项]/`. -/
def zhArticleTest (l : List Char) : Bool :=
  match l with
  | c :: rest =>
    c = '第' &&
      (let ns := rest.takeWhile zhArticleNumeral
       !ns.isEmpty &&
         (match rest.drop ns.length with
          | d :: _ => zhArticleUnit d
          | [] => false))
  | [] => false

/-- The numeral class of the zh `numberedClause` pattern: `[一二三四五六七八九十\d]`. -/
def zhClauseNumeral (c : Char) : Bool :=
  c ∈ "一二三四五六七八九十".toList || c.isDigit

/-- The closing class of the zh `numberedClause` pattern: `[）\)、．.]`. -/
def zhClauseClose (c : Char) : Bool := c ∈ "）)、．.".toList

/-- zh `numberedClause` pattern: `/^[（\(]?[一二三四五六七八九十\d]+[）\)、．.]/`. -/
def zhClauseTest (l : List Char) : Bool :=
  let l' := match l with
    | c :: rest => if c = '（' || c = '(' then rest else l
    | [] => l
  let ns := l'.takeWhile zhClauseNumeral
  !ns.isEmpty &&
    (match l'.drop ns.length with
     | d :: _ => zhClauseClose d
     | [] => false)

/-- The bracket class of the zh `sectionHeader` pattern: `[【】「」『』【】]`. -/
def zhBracket (c : Char) : Bool := c ∈ "【】「」『』".toList

/-- zh `sectionHeader` pattern: `/^[【】「」『』【】].*?[【】「」『』【】]$/`
(`.` does not match a line terminator). -/
def zhHeaderTest (l : List Char) : Bool :=
  match l with
  | c :: rest =>
    zhBracket c &&
      (match rest.getLast? with
       | some d => zhBracket d && rest.dropLast.all (fun e => !isLineTerm e)
       | none => false)
  | [] => false

/-- zh `signature` pattern: `/^(甲方|乙方|丙方|签章|签字|盖章|日期|地址)/`. -/
def zhSignatureTest (l : List Char) : Bool :=
  ["甲方", "乙方", "丙方", "签章", "签字", "盖章", "日期", "地址"].any
    (fun p => p.toList.isPrefixOf l)

/-- Case-insensitive prefix test, for the `/i` patterns of the en set. -/
def ciPrefixTest (p : String) (l : List Char) : Bool :=
  (p.toList.map Char.toLower).isPrefixOf (l.map Char.toLower)

/-- The trailing class of the en `article` pattern: `[\d.]`. -/
def isDigitDot (c : Char) : Bool := c.isDigit || c = '.'

/-- en `article` pattern: `/^(Article|Section|ARTICLE|SECTION)\s*[\d.]+/i`. -/
def enArticleTest (l : List Char) : Bool :=
  ["Article", "Section"].any (fun p =>
    ciPrefixTest p l &&
      (match (l.drop p.length).dropWhile isWS with
       | d :: _ => isDigitDot d
       | [] => false))

/-- en `numberedClause` pattern: `/^\d+[\.\)]\s+/`. -/
def enClauseTest (l : List Char) : Bool :=
  let ds := l.takeWhile Char.isDigit
  !ds.isEmpty &&
    (match l.drop ds.length with
     | c :: d :: _ => (c = '.' || c = ')') && isWS d
     | _ => false)

/-- ASCII upper-case letter, the class `[A-Z]`. -/
def isUpper (c : Char) : Bool := 'A' ≤ c && c ≤ 'Z'

/-- en `sectionHeader` pattern: `/^[A-Z][A-Z\s]+$/`. -/
def enHeaderTest (l : List Char) : Bool :=
  match l with
  | c :: rest => isUpper c && !rest.isEmpty && rest.all (fun d => isUpper d || isWS d)
  | [] => false

/-- en `signature` pattern: `/^(IN WITNESS WHEREOF|EXECUTED|Signature|Date|Address)/i`. -/
def enSignatureTest (l : List Char) : Bool :=
  ["IN WITNESS WHEREOF", "EXECUTED", "Signature", "Date", "Address"].any
    (fun p => ciPrefixTest p l)

/-- A structural segment of the document (`identifyLegalStructure`).  The
`type` field takes the source's string values
`content/article/clause/header/signature`; `importance` takes
`normal/high/low`. -/
structure Segment where
  type : String
  content : List Char
  importance : String
deriving DecidableEq

/-- Classification of one trimmed nonempty line against the pattern set of
the detected language, in the source's test order; returns the new segment
type together with its importance, or `none` for a plain content line. -/
def classifyLine (lang : String) (l : List Char) : Option (String × String) :=
  if lang = "zh" then
    if zhArticleTest l then some ("article", "high")
    else if zhClauseTest l then some ("clause", "high")
    else if zhHeaderTest l then some ("header", "high")
    else if zhSignatureTest l then some ("signature", "low")
    else none
  else
    if enArticleTest l then some ("article", "high")
    else if enClauseTest l then some ("clause", "high")
    else if enHeaderTest l then some ("header", "high")
    else if enSignatureTest l then some ("signature", "low")
    else none

/-- The line-walking loop of `identifyLegalStructure`: empty lines append a
newline to a nonempty current segment; a structural line closes the current
segment when its content is nonblank and otherwise merges into it, adopting
the detected type; other lines extend the current segment. -/
def identifyGo (lang : String) : List (List Char) → Segment → List Segment
  | [], cur => if trim cur.content ≠ [] then [cur] else []
  | line :: rest, cur =>
    let t := trim line
    if t = [] then
      identifyGo lang rest
        (if cur.content ≠ [] then { cur with content := cur.content ++ ['\n'] } else cur)
    else
      match classifyLine lang t with
      | some (ty, imp) =>
        if trim cur.content ≠ [] then
          cur :: identifyGo lang rest ⟨ty, t, imp⟩
        else
          identifyGo lang rest
            ⟨ty, cur.content ++ (if cur.content ≠ [] then '\n' :: t else t), imp⟩
      | none =>
        identifyGo lang rest
          { cur with content := cur.content ++ (if cur.content ≠ [] then '\n' :: t else t) }

/-- `identifyLegalStructure(text, lang)` from `chunker.js`. -/
def identifyLegalStructure (text : List Char) (lang : String) : List Segment :=
  identifyGo lang (splitLines text) ⟨"content", [], "normal"⟩

/-! ### Chunk packing (`smartChunk` and its helpers in `chunker.js`) -/

/-- The chunking configuration; only the three fields consulted by
`smartChunk` are modelled (`promptReserve`/`responseReserve` are never read). -/
structure Config where
  maxChunkTokens : ℕ
  overlapTokens : ℕ
  minChunkTokens : ℕ
deriving DecidableEq

/-- `CHUNK_CONFIG` defaults from `chunker.js`. -/
def CHUNK_CONFIG : Config := ⟨6000, 300, 800⟩

/-- The mutable chunk accumulator of `smartChunk` (the source's
`currentChunk` object; its never-read `startIndex` field is not modelled,
and a missing `hasOverlap` property is modelled as `false`). -/
structure RawChunk where
  content : List Char
  tokens : ℕ
  segments : List String
  importance : String
  hasOverlap : Bool
deriving DecidableEq

/-- The initial/reset accumulator `{content:'', tokens:0, segments:[], importance:'normal'}`. -/
def initRaw : RawChunk := ⟨[], 0, [], "normal", false⟩

/-- Chunk metadata attached by `finalizeChunk`. -/
structure ChunkMeta where
  chunkIndex : ℕ
  tokens : ℕ
  segmentTypes : List String
  importance : String
  hasOverlap : Bool
  charCount : ℕ
deriving DecidableEq

/-- An emitted chunk `{content, metadata}`. -/
structure Chunk where
  content : List Char
  metadata : ChunkMeta
deriving DecidableEq

/-- `[...new Set(list)]`: deduplication keeping first occurrences in order. -/
def dedupKeepGo : List String → List String → List String
  | [], _ => []
  | x :: xs, seen => if x ∈ seen then dedupKeepGo xs seen else x :: dedupKeepGo xs (x :: seen)

/-- `[...new Set(list)]` with an empty initial seen-set. -/
def dedupKeep (l : List String) : List String := dedupKeepGo l []

/-- `finalizeChunk(chunk, index)` from `chunker.js`: the metadata token count
is re-measured from the full joined content. -/
def finalizeChunk (chunk : RawChunk) (index : ℕ) : Chunk :=
  ⟨chunk.content,
   ⟨index, estimateTokens chunk.content, dedupKeep chunk.segments,
    chunk.importance, chunk.hasOverlap, chunk.content.length⟩⟩

/-- The zh sentence-ending class of `splitChineseSentences`: `[。！？；;!?]`. -/
def isZhEnder (c : Char) : Bool := c ∈ "。！？；;!?".toList

/-- Worker for `splitChineseSentences`: the source splits with a capturing
group, then glues each text part to its following terminator and pushes the
trimmed result when nonblank. -/
def zhSentGo : List Char → List Char → List (List Char)
  | [], acc =>
    let s := trim acc.reverse
    if s = [] then [] else [s]
  | c :: rest, acc =>
    if isZhEnder c then
      let s := trim (acc.reverse ++ [c])
      if s = [] then zhSentGo rest [] else s :: zhSentGo rest []
    else zhSentGo rest (c :: acc)

/-- `splitChineseSentences` from `chunker.js`. -/
def splitChineseSentences (l : List Char) : List (List Char) := zhSentGo l []

/-- The en sentence-ending class of `splitLongSegment`: `[.!?;]`. -/
def isEnEnder (c : Char) : Bool := c = '.' || c = '!' || c = '?' || c = ';'

/-- Worker for the en sentence split `content.split(/(?<=[.!?;])\s+/)`: a
piece closes after a terminator that is followed by at least one whitespace
character, and the whitespace run is consumed as the separator. -/
def enSentGo : List Char → Bool → List Char → List (List Char)
  | [], _, acc => [acc.reverse]
  | c :: rest, inSep, acc =>
    if inSep && isWS c then enSentGo rest true acc
    else if isEnEnder c && (match rest.head? with | some d => isWS d | none => false) then
      (acc.reverse ++ [c]) :: enSentGo rest true []
    else enSentGo rest false (c :: acc)

/-- `content.split(/(?<=[.!?;])\s+/)` used by `splitLongSegment` for English. -/
def splitEnSentences (l : List Char) : List (List Char) := enSentGo l false []

/-- The sentence list `splitLongSegment` computes for a segment. -/
def sentencesOf (lang : String) (content : List Char) : List (List Char) :=
  if lang = "zh" then splitChineseSentences content else splitEnSentences content

/-- The greedy sentence-packing loop of `splitLongSegment`. -/
def slsGo (segType : String) (imp : String) (config : Config) :
    List (List Char) → RawChunk → List RawChunk
  | [], cur => if cur.content = [] then [] else [cur]
  | sentence :: rest, cur =>
    if cur.tokens + estimateTokens sentence ≤ config.maxChunkTokens then
      slsGo segType imp config rest
        ⟨cur.content ++ (if cur.content = [] then [] else [' ']) ++ sentence,
         cur.tokens + estimateTokens sentence, cur.segments, cur.importance, cur.hasOverlap⟩
    else
      (if cur.content = [] then [] else [cur]) ++
        slsGo segType imp config rest
          ⟨sentence, estimateTokens sentence, [segType], imp, false⟩

/-- `splitLongSegment(segment, config, lang)` from `chunker.js`. -/
def splitLongSegment (segment : Segment) (config : Config) (lang : String) : List RawChunk :=
  slsGo segment.type segment.importance config (sentencesOf lang segment.content)
    ⟨[], 0, [segment.type], segment.importance, false⟩

/-- The terminator class of `extractOverlap`: `[。！？.!?;；]`. -/
def isOvEnder (c : Char) : Bool := c ∈ "。！？.!?;；".toList

/-- Worker for `content.split(/(?<=[。！？.!?;；])\s*/)` in `extractOverlap`:
a piece closes after every terminator, and any following whitespace run is
consumed as part of the separator. -/
def stGo : List Char → Bool → List Char → List (List Char)
  | [], _, acc => [acc.reverse]
  | c :: rest, postTerm, acc =>
    if postTerm && isWS c then stGo rest true acc
    else if isOvEnder c then (acc.reverse ++ [c]) :: stGo rest true []
    else stGo rest false (c :: acc)

/-- `content.split(/(?<=[。！？.!?;；])\s*/)` used by `extractOverlap`. -/
def splitOvSentences (l : List Char) : List (List Char) := stGo l false []

/-- The backwards collection loop of `extractOverlap`: starting from the last
sentence, sentences are prepended (joined by a single space) while the
accumulated token estimate is still below the target. -/
def ovGo (target : ℕ) : List (List Char) → ℕ → List Char → List Char
  | [], _, acc => acc
  | p :: ps, tok, acc =>
    if tok < target then
      ovGo target ps (tok + estimateTokens p) (p ++ (if acc = [] then [] else ' ' :: acc))
    else acc

/-- `extractOverlap(content, targetTokens)` from `chunker.js`. -/
def extractOverlap (content : List Char) (targetTokens : ℕ) : List Char :=
  ovGo targetTokens (splitOvSentences content).reverse 0 []

/-- The literal continuation marker `[上文续] ` of `createOverlapChunk`. -/
def marker : List Char := "[上文续] ".toList

/-- `createOverlapChunk(previousChunk, config)` from `chunker.js`. -/
def createOverlapChunk (previousChunk : RawChunk) (config : Config) : RawChunk :=
  if previousChunk.content = [] then initRaw
  else
    let overlapContent := extractOverlap previousChunk.content config.overlapTokens
    ⟨if overlapContent = [] then [] else marker ++ overlapContent,
     estimateTokens overlapContent, [], "normal", !overlapContent.isEmpty⟩

/-- The loop state of `smartChunk`: the emitted chunks and the accumulator. -/
structure PackState where
  chunks : List Chunk
  current : RawChunk
deriving DecidableEq

/-- Finalizing a run of raw chunks with consecutive indices, as in
`chunks.push(...subChunks.map((c, idx) => finalizeChunk(c, chunks.length + idx)))`. -/
def finalizeList : List RawChunk → ℕ → List Chunk
  | [], _ => []
  | c :: rest, i => finalizeChunk c i :: finalizeList rest (i + 1)

/-- `if (currentChunk.content) chunks.push(finalizeChunk(currentChunk, chunks.length))`. -/
def flushIf (st : PackState) : List Chunk :=
  if st.current.content = [] then st.chunks
  else st.chunks ++ [finalizeChunk st.current st.chunks.length]

/-- Appending a fitting segment to the accumulator (the middle branch of the
`smartChunk` loop): content joined by a blank line, token counter summed,
importance promoted to high by a high segment. -/
def appendSegment (cur : RawChunk) (seg : Segment) (segTok : ℕ) : RawChunk :=
  ⟨cur.content ++ (if cur.content = [] then [] else "\n\n".toList) ++ seg.content,
   cur.tokens + segTok,
   cur.segments ++ [seg.type],
   if seg.importance = "high" then "high" else cur.importance,
   cur.hasOverlap⟩

/-- One iteration of the `smartChunk` packing loop over a segment.  In the
oversize branch the source reads `subChunks[subChunks.length - 1]`; for an
empty sub-chunk list that JavaScript expression is `undefined` and
`createOverlapChunk` would throw, but every segment produced by
`identifyLegalStructure` has nonblank content and therefore a nonempty
sentence split, so the `none` fallback to the empty accumulator is
unreachable through `smartChunk`. -/
def packStep (config : Config) (lang : String) (st : PackState) (seg : Segment) : PackState :=
  let segTok := estimateTokens seg.content
  if segTok > config.maxChunkTokens then
    let chunks1 := flushIf st
    let subs := splitLongSegment seg config lang
    let chunks2 := chunks1 ++ finalizeList subs chunks1.length
    let cur := match subs.getLast? with
      | some lastSub => createOverlapChunk lastSub config
      | none => initRaw
    ⟨chunks2, cur⟩
  else if st.current.tokens + segTok ≤ config.maxChunkTokens then
    ⟨st.chunks, appendSegment st.current seg segTok⟩
  else
    let chunks1 := flushIf st
    let seeded := createOverlapChunk st.current config
    let newContent :=
      seeded.content ++ (if seeded.content = [] then [] else "\n\n".toList) ++ seg.content
    ⟨chunks1, ⟨newContent, estimateTokens newContent, [seg.type], seg.importance,
      seeded.hasOverlap⟩⟩

/-- The merge arm of the final flush: the residual is appended to the last
emitted chunk and only the `tokens` metadata field is re-measured (the
source leaves `charCount`, `segmentTypes` and the rest stale). -/
def mergeResidualIntoLast (chunks : List Chunk) (residual : RawChunk) : List Chunk :=
  match chunks.getLast? with
  | none => chunks
  | some lastChunk =>
    let newContent := lastChunk.content ++ "\n\n".toList ++ residual.content
    chunks.dropLast ++
      [⟨newContent, { lastChunk.metadata with tokens := estimateTokens newContent }⟩]

/-- The final flush of `smartChunk` (its last `if`/`else if`): a nonempty
residual meeting `minChunkTokens` is emitted; otherwise, when a prior chunk
exists, the residual is merged into it; otherwise nothing is emitted. -/
def finalFlush (config : Config) (st : PackState) : List Chunk :=
  if st.current.content ≠ [] ∧ config.minChunkTokens ≤ st.current.tokens then
    st.chunks ++ [finalizeChunk st.current st.chunks.length]
  else if st.current.content ≠ [] ∧ st.chunks ≠ [] then
    mergeResidualIntoLast st.chunks st.current
  else st.chunks

/-- The fold over all segments performed by the `smartChunk` loop. -/
def packFold (config : Config) (lang : String) (segments : List Segment) : PackState :=
  segments.foldl (packStep config lang) ⟨[], initRaw⟩

/-- `smartChunk(text, options)` from `chunker.js`, with `config` the merged
configuration `{...CHUNK_CONFIG, ...options}`. -/
def smartChunk (text : List Char) (config : Config) : List Chunk :=
  let lang := detectLanguage text
  let segments := identifyLegalStructure text lang
  finalFlush config (packFold config lang segments)

/-! ### Vector store (`rag.js`)

Vectors are modelled over `ℝ` (IEEE doubles are approximated by reals; the
only nonfinite value reachable in `cosineSimilarity` is the `0/0 = NaN` of
the zero-norm case, modelled as `none` below). -/

/-- The `dotProduct` accumulator of `VectorStore.cosineSimilarity`. -/
def dotProduct : List ℝ → List ℝ → ℝ
  | a :: as, b :: bs => a * b + dotProduct as bs
  | _, _ => 0

/-- The `normA`/`normB` accumulators of `VectorStore.cosineSimilarity`
(the sum of squared entries). -/
def sumSq : List ℝ → ℝ
  | [] => 0
  | a :: as => a * a + sumSq as

open scoped Classical

/-- `VectorStore.cosineSimilarity(vecA, vecB)` from `rag.js`.  The guard
`!vecA || !vecB || vecA.length !== vecB.length` returns `0`; note that in
JavaScript an empty array is truthy, so two empty vectors pass the guard.
After the guard the source returns
`dotProduct / (Math.sqrt(normA) * Math.sqrt(normB))`; the denominator is `0`
exactly when one of the norms is `0`, in which case all products
`vecA[i]*vecB[i]` vanish and the division is `0/0 = NaN`, modelled as
`none`.  (`null`/`undefined` vector arguments, which also return `0`, have
no counterpart for `List` arguments and are not modelled.) -/
noncomputable def cosineSimilarity (vecA vecB : List ℝ) : Option ℝ :=
  if vecA.length ≠ vecB.length then some 0
  else if sumSq vecA = 0 ∨ sumSq vecB = 0 then none
  else some (dotProduct vecA vecB / (Real.sqrt (sumSq vecA) * Real.sqrt (sumSq vecB)))

/-- A row assembled by `VectorStore.indexDocument` for the
`document_chunks` insert (the metadata merge with caller metadata and the
`indexed_at` timestamp is outside the pure model and keeps the chunk
metadata). -/
structure ChunkRecord where
  document_id : List Char
  content : List Char
  embedding : Option (List ℝ)
  metadata : ChunkMeta

/-- The external world consulted by `indexDocument`: the outcome of the
batched embedding call (`none` models a thrown error, `some rows` the
returned list), the per-text fallback outcomes, and which insert batches
report an error. -/
structure IndexEnv where
  batchEmbeddings : Option (List (List ℝ))
  singleEmbedding : ℕ → Option (List ℝ)
  insertError : ℕ → Bool

/-- The resolved value of `indexDocument`, together with the batch indices
whose insert error was logged (`console.error`) — the source's only use of
the insert outcomes. -/
structure IndexResult where
  success : Bool
  chunkCount : ℕ
  chunks : List Chunk
  loggedInsertErrors : List ℕ

/-- The embedding assigned to each chunk index: `embeddings[index] || null`,
where `embeddings` is the batch result when the batch call succeeded and the
per-text fallback list (with `null` for individually failed texts)
otherwise. -/
def embeddingAt (env : IndexEnv) (i : ℕ) : Option (List ℝ) :=
  match env.batchEmbeddings with
  | some results => results.get? i
  | none => env.singleEmbedding i

/-- `chunkRecords = chunks.map((chunk, index) => ({...}))` from
`indexDocument`. -/
def chunkRecordsGo (docId : List Char) (env : IndexEnv) : List Chunk → ℕ → List ChunkRecord
  | [], _ => []
  | c :: cs, i => ⟨docId, c.content, embeddingAt env i, c.metadata⟩ :: chunkRecordsGo docId env cs (i + 1)

/-- `VectorStore.indexDocument(documentId, text, metadata)` from `rag.js`.
The insert loop walks the records in batches of 20; an insert error is only
logged and does not change the resolved value, which always reports
`success: true` with `chunkCount = chunkRecords.length` and the chunk list. -/
def indexDocument (documentId : List Char) (text : List Char) (env : IndexEnv) : IndexResult :=
  let chunks := smartChunk text CHUNK_CONFIG
  let records := chunkRecordsGo documentId env chunks 0
  let batchCount := (records.length + 19) / 20
  let logged := (List.range batchCount).filter env.insertError
  ⟨true, records.length, chunks, logged⟩

/-! ### LLM client retry loop (`callAI` in `ai.js`) -/

/-- What one `axios.post` attempt inside `callAI` produces:
a connection-level failure (`ECONNRESET`/`ETIMEDOUT`/`ECONNREFUSED`/
`ENOTFOUND` or a socket/network message, the source's `isNetworkError`
conditions), some other thrown error, or an HTTP response with its status
and — when present — the `data.choices[0].message.content` payload. -/
inductive AttemptOutcome where
  | connectionError : AttemptOutcome
  | genericError : AttemptOutcome
  | response (status : ℕ) (choices : Option String) : AttemptOutcome
deriving DecidableEq

/-- The resolved or thrown outcome of `callAI` as a whole. -/
inductive CallResult where
  | success (content : String) : CallResult
  | failure (isNetworkError : Bool) : CallResult
deriving DecidableEq

/-- Whether the body of the `try` block throws for a given attempt outcome,
and with which `isNetworkError` classification.  `validateStatus` accepts
every status `< 500`, so a 5xx response makes `axios.post` reject (a
non-network error).  A response with status `< 500` resolves, after which
the source reads `response.data.choices[0].message.content`; when the body
has no `choices` (as in a 4xx error payload) that read throws a `TypeError`,
which the catch block classifies as a non-network error. -/
def attemptThrow : AttemptOutcome → Option Bool
  | .connectionError => some true
  | .genericError => some false
  | .response s choices =>
    if 500 ≤ s then some false
    else match choices with
      | some _ => none
      | none => some false

/-- The content returned when an attempt does not throw. -/
def attemptContent : AttemptOutcome → String
  | .response _ (some c) => c
  | _ => ""

/-- The trace of a `callAI` run: how many attempts were made, the backoff
waits (milliseconds) between them, and the final outcome. -/
structure CallTrace where
  attemptsMade : ℕ
  waitsMs : List ℕ
  result : CallResult
deriving DecidableEq

/-- The retry loop of `callAI`, recursing on the remaining attempts.  The
backoff before retry `attempt + 1` is `Math.pow(2, attempt) * 3000`
milliseconds after a network-classified failure and
`Math.pow(2, attempt) * 1000` otherwise. -/
def callAIGo (env : ℕ → AttemptOutcome) : ℕ → ℕ → List ℕ → CallTrace
  | 0, attempt, waits => ⟨attempt - 1, waits.reverse, .failure false⟩
  | remaining + 1, attempt, waits =>
    match attemptThrow (env attempt) with
    | none => ⟨attempt, waits.reverse, .success (attemptContent (env attempt))⟩
    | some isNet =>
      if remaining = 0 then ⟨attempt, waits.reverse, .failure isNet⟩
      else
        let backoff := (if isNet then 3000 else 1000) * 2 ^ attempt
        callAIGo env remaining (attempt + 1) (backoff :: waits)

/-- `callAI` from `ai.js`, abstracted over the per-attempt outcomes
(`env attempt` is what attempt number `attempt` encounters); JSON-mode
parsing of a successful body is collapsed into the returned content. -/
def callAI (env : ℕ → AttemptOutcome) (maxRetries : ℕ) : CallTrace :=
  callAIGo env maxRetries 1 []

/-! ### Consolidation (`consolidateAnalysis` in `ai.js` and the degraded
path of `router.post('/analyze-sync/:id')` in `routes/documents.js`)

Scores are modelled as integers (the prompts request integer scores; the
banding thresholds are integral).  Only the report fields involved in the
claims — `score`, `riskLevel`, `risks`, `signRecommendation` — are
modelled; the remaining fields (`summary`, `riskCategories`,
`dimensionScores`, …) do not interact with them. -/

/-- A risk object as delivered by the model (any field may be absent). -/
structure LLMRisk where
  level : Option String
  title : Option String
  clause : Option (List Char)
  description : Option (List Char)
  riskReason : Option (List Char)
  recommendation : Option String
  legalBasis : Option String
  category : Option String
deriving DecidableEq

/-- A validated risk as it appears in a report. -/
structure Risk where
  level : String
  title : String
  clause : List Char
  description : List Char
  recommendation : String
  legalBasis : String
  category : String
deriving DecidableEq

/-- The consolidation payload delivered by the model (claim-relevant fields). -/
structure LLMResult where
  score : Option ℤ
  riskLevel : Option String
  risks : Option (List LLMRisk)
  signRecommendation : Option String
deriving DecidableEq

/-- A per-chunk analysis outcome fed into consolidation (claim-relevant
fields). -/
structure ChunkResult where
  score : Option ℤ
  risks : Option (List LLMRisk)
deriving DecidableEq

/-- The claim-relevant fields of a consolidated report. -/
structure Report where
  score : ℤ
  riskLevel : Option String
  risks : List Risk
  signRecommendation : String
deriving DecidableEq

/-- JavaScript `a || d` for an optional string (both `undefined` and the
empty string are falsy). -/
def jsOrStr (a : Option String) (d : String) : String :=
  match a with
  | some v => if v = "" then d else v
  | none => d

/-- JavaScript `a || d` for an optional character list. -/
def jsOrL (a : Option (List Char)) (d : List Char) : List Char :=
  match a with
  | some v => if v = [] then d else v
  | none => d

/-- JavaScript `a || d` for an optional integer (`0` is falsy). -/
def jsOrZ (a : Option ℤ) (d : ℤ) : ℤ :=
  match a with
  | some v => if v = 0 then d else v
  | none => d

/-- The per-risk level enum `['high', 'medium', 'low']`. -/
def riskEnum3 : List String := ["high", "medium", "low"]

/-- The report-level enum `['low', 'medium', 'high', 'critical']`. -/
def riskEnum4 : List String := ["low", "medium", "high", "critical"]

/-- `['high','medium','low'].includes(r.level) ? r.level : 'low'`. -/
def validLevel (lv : Option String) : String :=
  match lv with
  | some v => if v ∈ riskEnum3 then v else "low"
  | none => "low"

/-- Normalization of a consolidated risk on the success path of
`consolidateAnalysis` (note the `r.riskReason` fallback for the
description). -/
def normSuccessRisk (r : LLMRisk) : Risk :=
  ⟨validLevel r.level,
   jsOrStr r.title "未命名风险",
   trim (jsOrL r.clause []),
   trim (jsOrL r.description (jsOrL r.riskReason [])),
   jsOrStr r.recommendation "",
   jsOrStr r.legalBasis "",
   jsOrStr r.category "其他"⟩

/-- Normalization of a chunk-level risk on the fallback branch of the
success path (no `riskReason` fallback). -/
def normChunkRisk (r : LLMRisk) : Risk :=
  ⟨validLevel r.level,
   jsOrStr r.title "未命名风险",
   trim (jsOrL r.clause []),
   trim (jsOrL r.description []),
   jsOrStr r.recommendation "",
   jsOrStr r.legalBasis "",
   jsOrStr r.category "其他"⟩

/-- Normalization of a chunk-level risk on the degraded paths (the catch
blocks of `consolidateAnalysis` and of `/analyze-sync/:id`): no trimming and
no length filtering. -/
def normDegradedRisk (r : LLMRisk) : Risk :=
  ⟨validLevel r.level,
   jsOrStr r.title "未命名风险",
   jsOrL r.clause [],
   jsOrL r.description [],
   jsOrStr r.recommendation "",
   jsOrStr r.legalBasis "",
   jsOrStr r.category "其他"⟩

/-- The validity filter `r.clause.length >= 10 && r.description.length >= 30`. -/
def validRisk (r : Risk) : Bool := 10 ≤ r.clause.length && 30 ≤ r.description.length

/-- The deduplication key `` `${risk.title}_${risk.clause.substring(0, 50)}` ``. -/
def riskKey (r : Risk) : List Char := r.title.toList ++ '_' :: r.clause.take 50

/-- The `seen`-set deduplication loop shared by the fallback and degraded
paths; a risk is kept when its key is new and its title is nonempty and not
the placeholder `未命名风险`. -/
def dedupRisksGo : List Risk → List (List Char) → List Risk
  | [], _ => []
  | r :: rs, seen =>
    if riskKey r ∉ seen ∧ r.title ≠ "" ∧ r.title ≠ "未命名风险" then
      r :: dedupRisksGo rs (riskKey r :: seen)
    else dedupRisksGo rs seen

/-- Deduplication with an initially empty seen-set. -/
def dedupRisks (l : List Risk) : List Risk := dedupRisksGo l []

/-- `order[level] || 0` for `order = {high: 3, medium: 2, low: 1}`. -/
def levelRank (lv : String) : ℕ :=
  if lv = "high" then 3 else if lv = "medium" then 2 else if lv = "low" then 1 else 0

/-- `risks.sort((a, b) => order[b.level] - order[a.level])`: V8's sort is
stable, so its output is the unique by-level-descending reordering in which
equal levels keep their original order; `List.insertionSort` with the
relation "`a` may precede `b`, i.e. `order[b] ≤ order[a]`" produces exactly
that reordering (`orderedInsert` places an earlier element before the
equal-rank elements inserted from its right). -/
def sortByLevel (l : List Risk) : List Risk :=
  List.insertionSort (fun a b => levelRank b.level ≤ levelRank a.level) l

/-- Flattening `chunkResults.flatMap(r => r.risks || [])`. -/
def chunkFlatRisks (cs : List ChunkResult) : List LLMRisk :=
  cs.flatMap (fun r => r.risks.getD [])

/-- The validated consolidated risks of the success path
(`consolidatedRisks` in the source). -/
def consolidatedRisksOf (result : LLMResult) : List Risk :=
  ((result.risks.getD []).map normSuccessRisk).filter validRisk

/-- `Math.max(0, Math.min(100, result.score || 50))`. -/
def clampScore (s : Option ℤ) : ℤ := max 0 (min 100 (jsOrZ s 50))

/-- The success path of `consolidateAnalysis`: scores clamped; an invalid or
missing model `riskLevel` becomes `undefined` (`none`); the risk list is the
sorted consolidated risks, or — when no consolidated risk survives
validation — the deduplicated, sorted chunk-level risks; a missing
`signRecommendation` defaults to the constant `需人工复核`. -/
def consolidateSuccess (result : LLMResult) (chunkResults : List ChunkResult) : Report :=
  ⟨clampScore result.score,
   (match result.riskLevel with
    | some v => if v ∈ riskEnum4 then some v else none
    | none => none),
   (let cons := consolidatedRisksOf result
    if cons = [] then
      sortByLevel (dedupRisks (((chunkFlatRisks chunkResults).map normChunkRisk).filter validRisk))
    else sortByLevel cons),
   jsOrStr result.signRecommendation "需人工复核"⟩

/-- `Math.round(sum / n)` for the integer chunk scores:
`⌊sum/n + 1/2⌋ = ⌊(2*sum + n) / (2*n)⌋` for `n > 0` (for `n = 0` the source
divides by zero and produces `NaN`; the model is only asserted for nonempty
chunk lists). -/
def avgScoreOf (cs : List ChunkResult) : ℤ :=
  Int.fdiv (2 * (cs.map (fun r => jsOrZ r.score 50)).sum + cs.length) (2 * cs.length)

/-- The report-level banding `avgScore >= 80 ? 'low' : avgScore >= 60 ?
'medium' : avgScore >= 40 ? 'high' : 'critical'`. -/
def scoreBand (s : ℤ) : String :=
  if 80 ≤ s then "low" else if 60 ≤ s then "medium" else if 40 ≤ s then "high" else "critical"

/-- The sign-recommendation banding `avgScore >= 70 ? '建议人工复核后签署' :
avgScore >= 50 ? '建议修改后签署' : '建议暂缓签署'`. -/
def signBand (s : ℤ) : String :=
  if 70 ≤ s then "建议人工复核后签署" else if 50 ≤ s then "建议修改后签署" else "建议暂缓签署"

/-- The degraded path of `consolidateAnalysis` (its catch block): risks are
aggregated from the chunks, deduplicated and sorted; `riskLevel` and
`signRecommendation` are derived from the average score. -/
def consolidateDegraded (chunkResults : List ChunkResult) : Report :=
  let avg := avgScoreOf chunkResults
  ⟨avg, some (scoreBand avg),
   sortByLevel (dedupRisks ((chunkFlatRisks chunkResults).map normDegradedRisk)),
   signBand avg⟩

/-- The route-level degraded path (the catch block of
`/analyze-sync/:id` in `routes/documents.js`): like the degraded path of
`consolidateAnalysis` but without deduplication. -/
def analyzeSyncDegraded (chunkResults : List ChunkResult) : Report :=
  let avg := avgScoreOf chunkResults
  ⟨avg, some (scoreBand avg),
   sortByLevel ((chunkFlatRisks chunkResults).map normDegradedRisk),
   signBand avg⟩

/-! ### Statement vocabulary for the chunker claims -/

/-- Erasure of all JavaScript whitespace, the "modulo whitespace" of the
overlap claim. -/
def strip (l : List Char) : List Char := l.filter (fun c => !isWS c)

/-- The text up to (excluding) the first blank line, the claim's reading of
"the overlap region" of an overlap-seeded chunk. -/
def upToBlankLine : List Char → List Char
  | '\n' :: '\n' :: _ => []
  | c :: rest => c :: upToBlankLine rest
  | [] => []

/-- The relation between an emitted chunk and its successor asserted by the
amended overlap claim: a successor carrying `has_overlap` consists of the
literal marker, then exactly the overlap `extractOverlap` draws from the
predecessor's content, then the later-appended material. -/
def OverlapRel (config : Config) (prev next : Chunk) : Prop :=
  next.metadata.hasOverlap = true →
    ∃ rest, next.content = marker ++ extractOverlap prev.content config.overlapTokens ++ rest

/-- The loop invariant tying the accumulator to the chunk it was seeded
from: an overlap-carrying accumulator starts with the marker and the overlap
extracted from the last emitted chunk. -/
def CurOk (config : Config) (chunks : List Chunk) (cur : RawChunk) : Prop :=
  cur.hasOverlap = true →
    ∃ prev rest, chunks.getLast? = some prev ∧
      cur.content = marker ++ extractOverlap prev.content config.overlapTokens ++ rest

/-- The sortedness relation of the risk claims: descending `order` rank. -/
def RiskLE (a b : Risk) : Prop := levelRank b.level ≤ levelRank a.level

/-- Key distinctness, the deduplication property of the risk claims. -/
def KeysDistinct (l : List Risk) : Prop :=
  List.Pairwise (fun a b => riskKey a ≠ riskKey b) l

/-! ## Theorems -/

/-- The exact rational value of the source's token formula, as a ceiling. -/
theorem natCeilDiv_eq_ceil (c o : ℕ) :
    (((14 * c + 5 * o + 19) / 20 : ℕ) : ℤ) =
      ⌈(c : ℚ) * (7 / 10) + (o : ℚ) * (1 / 4)⌉ := by
  have hx : (c : ℚ) * (7 / 10) + (o : ℚ) * (1 / 4) = ((14 * c + 5 * o : ℕ) : ℚ) / 20 := by
    push_cast
    ring
  set n : ℕ := 14 * c + 5 * o with hn
  rw [hx, eq_comm, Int.ceil_eq_iff]
  constructor
  · have h3 : (n + 19) / 20 * 20 < n + 20 := by omega
    rw [sub_lt_iff_lt_add,
      show (n : ℚ) / 20 + 1 = ((n : ℚ) + 20) / 20 by ring,
      lt_div_iff₀ (by norm_num : (0 : ℚ) < 20)]
    exact_mod_cast h3
  · have h4 : n ≤ (n + 19) / 20 * 20 := by omega
    rw [div_le_iff₀ (by norm_num : (0 : ℚ) < 20)]
    exact_mod_cast h4

/-- The integer comparison in `detectLanguage` agrees with the source's
rational ratio comparison, including the empty-text case (where the source
compares `NaN > 0.3`, which is false, and the rational model compares
`0/0 = 0 > 3/10`, also false). -/
theorem detectLanguage_eq_ratio (s : List Char) :
    detectLanguage s = "zh" ↔ (cjkCount s : ℚ) / (s.length : ℚ) > 3 / 10 := by
  have hzh : detectLanguage s = "zh" ↔ 10 * cjkCount s > 3 * s.length := by
    simp only [detectLanguage]
    split_ifs with h
    · exact iff_of_true rfl h
    · exact iff_of_false (by decide) h
  rcases Nat.eq_zero_or_pos s.length with h0 | hpos
  · have hs : s = [] := List.length_eq_zero.mp h0
    subst hs
    rw [hzh]
    norm_num [cjkCount]
  · have hlen : (0 : ℚ) < (s.length : ℚ) := by exact_mod_cast hpos
    rw [hzh, gt_iff_lt, gt_iff_lt, div_lt_div_iff₀ (by norm_num) hlen]
    constructor
    · intro h
      have h' : (3 * s.length : ℕ) < cjkCount s * 10 := by omega
      exact_mod_cast h'
    · intro h
      have h' : (3 * s.length : ℕ) < cjkCount s * 10 := by exact_mod_cast h
      omega

/-- **C9.** `estimate_tokens` computes the ceiling of
`cjk·0.7 + (len − cjk)·0.25` over the CJK count (U+4E00–U+9FFF) and the
remaining characters, and `detect_language` returns `"zh"` exactly when the
CJK ratio exceeds `0.3` and `"en"` otherwise; on empty input they return `0`
and `"en"`.  (Both are Lean functions of the text alone, hence pure and
deterministic.) -/
theorem claim_C9 :
    (∀ s : List Char,
        (estimateTokens s : ℤ) =
          ⌈(cjkCount s : ℚ) * (7 / 10) + (otherCount s : ℚ) * (1 / 4)⌉) ∧
    (∀ s : List Char,
        detectLanguage s = "zh" ↔ (cjkCount s : ℚ) / (s.length : ℚ) > 3 / 10) ∧
    (∀ s : List Char, detectLanguage s = "zh" ∨ detectLanguage s = "en") ∧
    estimateTokens [] = 0 ∧ detectLanguage [] = "en" := by
  refine ⟨fun s => natCeilDiv_eq_ceil (cjkCount s) (otherCount s),
    detectLanguage_eq_ratio, fun s => ?_, rfl, rfl⟩
  unfold detectLanguage
  split
  · exact Or.inl rfl
  · exact Or.inr rfl

/-- **C6** (exhibit of the divergence and of the surrounding policy).  A 4xx
response (here a 404 whose JSON error body carries no `choices`) is retried
up to `maxRetries` with the generic `1·2^attempt`-second backoff — the
`validateStatus` guard resolves it and the subsequent `choices[0]` read
throws — although the claim, and the source's own comment
`只重试 5xx` at the `validateStatus` line, say 4xx is never retried.
Connection-level failures back off `3·2^attempt` seconds, other failures and
5xx responses `1·2^attempt` seconds (waits are in milliseconds here), at
most `maxRetries` attempts are made, and a successful response is never
retried. -/
theorem claim_C6_bug :
    callAI (fun _ => .response 404 none) 3 = ⟨3, [2000, 4000], .failure false⟩ ∧
    callAI (fun _ => .connectionError) 3 = ⟨3, [6000, 12000], .failure true⟩ ∧
    callAI (fun _ => .genericError) 3 = ⟨3, [2000, 4000], .failure false⟩ ∧
    callAI (fun _ => .response 502 (some "err")) 2 = ⟨2, [2000], .failure false⟩ ∧
    callAI (fun _ => .response 200 (some "ok")) 3 = ⟨1, [], .success "ok"⟩ := by
  decide

/-- The record list built by `indexDocument` has one row per chunk. -/
theorem chunkRecordsGo_length (docId : List Char) (env : IndexEnv) (cs : List Chunk) :
    ∀ i, (chunkRecordsGo docId env cs i).length = cs.length := by
  induction cs with
  | nil => intro i; rfl
  | cons c cs ih => intro i; simpa [chunkRecordsGo] using ih (i + 1)

/-- **C10.** `indexDocument` resolves with `success: true`, a `chunkCount`
equal to the number of chunks the chunker produced, and the chunk list
itself, whatever the embedding and insert outcomes are: the statement holds
for every environment `env`, so in particular the result does not depend on
`env.insertError` — insert errors are only logged. -/
theorem claim_C10 (documentId text : List Char) (env : IndexEnv) :
    (indexDocument documentId text env).success = true ∧
    (indexDocument documentId text env).chunkCount = (smartChunk text CHUNK_CONFIG).length ∧
    (indexDocument documentId text env).chunks = smartChunk text CHUNK_CONFIG :=
  ⟨rfl, chunkRecordsGo_length documentId env (smartChunk text CHUNK_CONFIG) 0, rfl⟩

/-- **C4** (counterexample).  When the consolidation model supplies the
invalid level `"severe"` with score `90`, the success path leaves
`riskLevel` unset (`undefined`), although the claim requires the banded
value (`"low"` for score `90`). -/
theorem claim_C4_counterexample :
    (consolidateSuccess ⟨some 90, some "severe", some [], none⟩ []).riskLevel = none ∧
    scoreBand (consolidateSuccess ⟨some 90, some "severe", some [], none⟩ []).score = "low" := by
  constructor <;> decide

/-- **C4** (amended).  On the success path a valid model `riskLevel` is kept
and an invalid or missing one leaves `riskLevel` unset — it is never derived
from the score there; only the degraded paths derive `riskLevel` from the
average score by the banding `≥80 → low, ≥60 → medium, ≥40 → high, else
critical`, whose value always lies in the enum. -/
theorem claim_C4_amended :
    (∀ (result : LLMResult) (cs : List ChunkResult) (v : String),
        result.riskLevel = some v → v ∈ riskEnum4 →
        (consolidateSuccess result cs).riskLevel = some v) ∧
    (∀ (result : LLMResult) (cs : List ChunkResult) (v : String),
        result.riskLevel = some v → v ∉ riskEnum4 →
        (consolidateSuccess result cs).riskLevel = none) ∧
    (∀ (result : LLMResult) (cs : List ChunkResult),
        result.riskLevel = none → (consolidateSuccess result cs).riskLevel = none) ∧
    (∀ cs : List ChunkResult, cs ≠ [] →
        (consolidateDegraded cs).riskLevel = some (scoreBand (avgScoreOf cs))) ∧
    (∀ cs : List ChunkResult, cs ≠ [] →
        (analyzeSyncDegraded cs).riskLevel = some (scoreBand (avgScoreOf cs))) ∧
    (∀ z : ℤ, scoreBand z ∈ riskEnum4) := by
  refine ⟨fun result cs v hv hmem => ?_, fun result cs v hv hmem => ?_,
    fun result cs hv => ?_, fun cs _ => rfl, fun cs _ => rfl, fun z => ?_⟩
  · simp [consolidateSuccess, hv, hmem]
  · simp [consolidateSuccess, hv, hmem]
  · simp [consolidateSuccess, hv]
  · unfold scoreBand riskEnum4
    split_ifs <;> simp

theorem claim_C4_witness :
    (⟨some 20, some "high", some [], none⟩ : LLMResult).riskLevel = some "high" ∧
    ("high" : String) ∈ riskEnum4 ∧
    (consolidateSuccess ⟨some 20, some "high", some [], none⟩ []).riskLevel = some "high" ∧
    ([⟨some 90, none⟩] : List ChunkResult) ≠ [] ∧
    (consolidateDegraded [⟨some 90, none⟩]).riskLevel =
      some (scoreBand (avgScoreOf [⟨some 90, none⟩])) ∧
    scoreBand (avgScoreOf [⟨some 90, none⟩]) = "low" :=
  ⟨rfl, by decide, claim_C4_amended.1 _ _ _ rfl (by decide), by decide,
   claim_C4_amended.2.2.2.1 _ (by decide), by decide⟩

/-- **C5** (counterexample).  When the consolidation model omits
`signRecommendation` and the final score is `90`, the success path returns
the constant `需人工复核`, not the claimed band value `建议人工复核后签署`. -/
theorem claim_C5_counterexample :
    (consolidateSuccess ⟨some 90, some "low", some [], none⟩ []).signRecommendation =
      "需人工复核" ∧
    signBand (consolidateSuccess ⟨some 90, some "low", some [], none⟩ []).score =
      "建议人工复核后签署" ∧
    ("需人工复核" : String) ≠ "建议人工复核后签署" := by
  refine ⟨by decide, by decide, by decide⟩

/-- **C5** (amended).  A missing `signRecommendation` is populated from the
score band (`≥70`/`≥50`/else) only on the degraded paths; on the success
path it defaults to the constant `需人工复核`. -/
theorem claim_C5_amended :
    (∀ (result : LLMResult) (cs : List ChunkResult), result.signRecommendation = none →
        (consolidateSuccess result cs).signRecommendation = "需人工复核") ∧
    (∀ (result : LLMResult) (cs : List ChunkResult),
        (consolidateSuccess result cs).signRecommendation =
          jsOrStr result.signRecommendation "需人工复核") ∧
    (∀ cs : List ChunkResult, cs ≠ [] →
        (consolidateDegraded cs).signRecommendation = signBand (avgScoreOf cs)) ∧
    (∀ cs : List ChunkResult, cs ≠ [] →
        (analyzeSyncDegraded cs).signRecommendation = signBand (avgScoreOf cs)) := by
  refine ⟨fun result cs h => ?_, fun result cs => rfl, fun cs _ => rfl, fun cs _ => rfl⟩
  simp [consolidateSuccess, jsOrStr, h]

theorem claim_C5_witness :
    (⟨some 40, some "low", some [], none⟩ : LLMResult).signRecommendation = none ∧
    (consolidateSuccess ⟨some 40, some "low", some [], none⟩ []).signRecommendation =
      "需人工复核" ∧
    ([⟨some 40, none⟩] : List ChunkResult) ≠ [] ∧
    (consolidateDegraded [⟨some 40, none⟩]).signRecommendation =
      signBand (avgScoreOf [⟨some 40, none⟩]) :=
  ⟨rfl, claim_C5_amended.1 _ _ rfl, by decide, claim_C5_amended.2.2.1 _ (by decide)⟩

/-- **C8** (counterexample).  Two empty vectors pass the
`!vecA || !vecB || length` guard (an empty array is truthy in JavaScript),
so the division `0 / (√0 · √0) = 0/0` produces `NaN` (`none`), not the
claimed `0`. -/
theorem claim_C8_counterexample :
    cosineSimilarity [] [] = none ∧ (none : Option ℝ) ≠ some 0 := by
  constructor
  · simp [cosineSimilarity, sumSq]
  · simp

/-- **C8** (amended).  `cosineSimilarity` returns `dot(a,b)/(‖a‖·‖b‖)` for
equal-length vectors with nonzero norms and `0` for mismatched lengths; for
equal-length vectors one of whose norms is zero — including two empty
vectors — the division is `0/0 = NaN` (`none`), not `0`. -/
theorem claim_C8_amended (vecA vecB : List ℝ) :
    (vecA.length ≠ vecB.length → cosineSimilarity vecA vecB = some 0) ∧
    (vecA.length = vecB.length → (sumSq vecA = 0 ∨ sumSq vecB = 0) →
      cosineSimilarity vecA vecB = none) ∧
    (vecA.length = vecB.length → sumSq vecA ≠ 0 → sumSq vecB ≠ 0 →
      cosineSimilarity vecA vecB =
        some (dotProduct vecA vecB /
          (Real.sqrt (sumSq vecA) * Real.sqrt (sumSq vecB)))) := by
  refine ⟨fun h => ?_, fun h hz => ?_, fun h ha hb => ?_⟩
  · simp [cosineSimilarity, h]
  · simp [cosineSimilarity, h, hz]
  · simp [cosineSimilarity, h, ha, hb]

theorem claim_C8_witness :
    ([3, 4] : List ℝ).length = ([4, 3] : List ℝ).length ∧
    sumSq ([3, 4] : List ℝ) ≠ 0 ∧ sumSq ([4, 3] : List ℝ) ≠ 0 ∧
    cosineSimilarity [3, 4] [4, 3] =
      some (dotProduct ([3, 4] : List ℝ) [4, 3] /
        (Real.sqrt (sumSq ([3, 4] : List ℝ)) * Real.sqrt (sumSq ([4, 3] : List ℝ)))) := by
  have ha : sumSq ([3, 4] : List ℝ) ≠ 0 := by norm_num [sumSq]
  have hb : sumSq ([4, 3] : List ℝ) ≠ 0 := by norm_num [sumSq]
  exact ⟨rfl, ha, hb, (claim_C8_amended [3, 4] [4, 3]).2.2 rfl ha hb⟩

/-- **C1** (counterexample).  For the non-empty input `"abc"` (a single
content segment of 1 estimated token, below the default
`min_chunk_tokens = 800`, with no prior chunk) `smartChunk` returns no chunk
at all: the claimed emit-as-is arm of the final flush does not exist in the
code, which simply drops the residual. -/
theorem claim_C1_counterexample :
    "abc".toList ≠ [] ∧ smartChunk "abc".toList CHUNK_CONFIG = [] := by
  constructor <;> decide

/-- **C1** (amended).  The final flush emits the residual accumulator when
it meets `min_chunk_tokens`; otherwise, when a prior chunk exists, it merges
the residual into that chunk (re-measuring only its token metadata);
otherwise the residual is **dropped**, so a non-empty input whose material
stays below `min_chunk_tokens` can produce zero chunks (and `smartChunk` is
exactly this flush applied to the packing fold). -/
theorem claim_C1_amended :
    (∀ (text : List Char) (config : Config),
        smartChunk text config =
          finalFlush config
            (packFold config (detectLanguage text)
              (identifyLegalStructure text (detectLanguage text)))) ∧
    (∀ (config : Config) (st : PackState),
        st.current.content ≠ [] → config.minChunkTokens ≤ st.current.tokens →
        finalFlush config st = st.chunks ++ [finalizeChunk st.current st.chunks.length]) ∧
    (∀ (config : Config) (st : PackState) (h : st.chunks ≠ []),
        st.current.content ≠ [] → st.current.tokens < config.minChunkTokens →
        finalFlush config st =
          st.chunks.dropLast ++
            [⟨(st.chunks.getLast h).content ++ "\n\n".toList ++ st.current.content,
              { (st.chunks.getLast h).metadata with
                  tokens := estimateTokens
                    ((st.chunks.getLast h).content ++ "\n\n".toList ++
                      st.current.content) }⟩]) ∧
    (∀ (config : Config) (st : PackState),
        st.current.content ≠ [] → st.current.tokens < config.minChunkTokens →
        st.chunks = [] → finalFlush config st = []) := by
  refine ⟨fun text config => rfl, fun config st h1 h2 => ?_, fun config st h h1 h2 => ?_,
    fun config st h1 h2 h3 => ?_⟩
  · unfold finalFlush
    rw [if_pos ⟨h1, h2⟩]
  · unfold finalFlush
    rw [if_neg (fun hc => absurd hc.2 (by omega)), if_pos ⟨h1, h⟩]
    simp only [mergeResidualIntoLast, List.getLast?_eq_getLast st.chunks h]
  · unfold finalFlush
    rw [if_neg (fun hc => absurd hc.2 (by omega)), if_neg (fun hc => hc.2 h3)]
    exact h3

theorem claim_C1_witness :
    (['b'] : List Char) ≠ [] ∧ (1 : ℕ) < 5 ∧
    finalFlush ⟨10, 0, 5⟩
        ⟨[finalizeChunk ⟨['a'], 1, ["content"], "normal", false⟩ 0],
         ⟨['b'], 1, [], "normal", false⟩⟩ =
      [⟨['a', '\n', '\n', 'b'],
        ⟨0, estimateTokens ['a', '\n', '\n', 'b'], ["content"], "normal", false, 1⟩⟩] :=
  ⟨by decide, by decide,
    (claim_C1_amended.2.2.1 ⟨10, 0, 5⟩
        ⟨[finalizeChunk ⟨['a'], 1, ["content"], "normal", false⟩ 0],
         ⟨['b'], 1, [], "normal", false⟩⟩
        (by decide) (by decide) (by decide)).trans (by decide)⟩

/-- **C2** (counterexample).  With `max_chunk_tokens = 2`
(`overlap_tokens = 0`, `min_chunk_tokens = 0`) the text `"1. a\n2. b"` packs
two one-token clause segments into one chunk — the guard compares the
running sum `1 + 1 ≤ 2` — but the emitted chunk's content includes the
blank-line separator, and its re-measured estimate is `3 > 2`.  With
`min_chunk_tokens = 0` the merge branch of the final flush is unreachable,
so this chunk is not a final-merge residual. -/
theorem claim_C2_counterexample :
    (smartChunk "1. a\n2. b".toList ⟨2, 0, 0⟩).map (fun c => c.metadata.tokens) = [3] ∧
    ¬(3 ≤ (2 : ℕ)) := by
  constructor <;> decide

/-- `extractOverlap` with target `0` collects nothing. -/
theorem extractOverlap_zero (content : List Char) : extractOverlap content 0 = [] := by
  unfold extractOverlap
  cases (splitOvSentences content).reverse with
  | nil => rfl
  | cons p ps => rfl

/-- With overlap disabled, a reseeded accumulator is empty. -/
theorem createOverlapChunk_zero (config : Config) (h : config.overlapTokens = 0)
    (prev : RawChunk) :
    (createOverlapChunk prev config).content = [] ∧
      (createOverlapChunk prev config).tokens = 0 := by
  unfold createOverlapChunk
  split_ifs with hc
  · exact ⟨rfl, rfl⟩
  · rw [h, extractOverlap_zero]
    exact ⟨rfl, rfl⟩

/-- One packing step keeps the accumulator's token counter within the
budget when overlap seeding is disabled. -/
theorem packStep_tokens_le (config : Config) (lang : String) (st : PackState) (seg : Segment)
    (h0 : config.overlapTokens = 0)
    (hcur : st.current.tokens ≤ config.maxChunkTokens) :
    (packStep config lang st seg).current.tokens ≤ config.maxChunkTokens := by
  unfold packStep
  by_cases h1 : estimateTokens seg.content > config.maxChunkTokens
  · rw [if_pos h1]
    cases hl : (splitLongSegment seg config lang).getLast? with
    | none => simp [hl, initRaw]
    | some lastSub => simp [hl, (createOverlapChunk_zero config h0 lastSub).2]
  · rw [if_neg h1]
    by_cases h2 : st.current.tokens + estimateTokens seg.content ≤ config.maxChunkTokens
    · rw [if_pos h2]
      exact h2
    · rw [if_neg h2]
      have hc := createOverlapChunk_zero config h0 st.current
      simp only [hc.1, List.nil_append]
      simpa using le_of_not_lt h1

/-- The accumulator invariant through the whole fold. -/
theorem packFoldGo_tokens_le (config : Config) (lang : String)
    (h0 : config.overlapTokens = 0) :
    ∀ (segments : List Segment) (st : PackState),
      st.current.tokens ≤ config.maxChunkTokens →
      (segments.foldl (packStep config lang) st).current.tokens ≤ config.maxChunkTokens := by
  intro segments
  induction segments with
  | nil => intro st h; simpa using h
  | cons s ss ih =>
    intro st h
    exact ih _ (packStep_tokens_le config lang st s h0 h)

/-- The greedy sentence packer keeps every sub-chunk's token counter within
the budget, provided every individual sentence fits. -/
theorem slsGo_tokens_le (ty imp : String) (config : Config) :
    ∀ (sents : List (List Char)) (cur : RawChunk),
      cur.tokens ≤ config.maxChunkTokens →
      (∀ s ∈ sents, estimateTokens s ≤ config.maxChunkTokens) →
      ∀ c ∈ slsGo ty imp config sents cur, c.tokens ≤ config.maxChunkTokens := by
  intro sents
  induction sents with
  | nil =>
    intro cur hcur _ c hc
    unfold slsGo at hc
    split at hc
    · exact absurd hc (List.not_mem_nil c)
    · rw [List.mem_singleton.mp hc]
      exact hcur
  | cons s ss ih =>
    intro cur hcur hs c hc
    unfold slsGo at hc
    by_cases hfit : cur.tokens + estimateTokens s ≤ config.maxChunkTokens
    · rw [if_pos hfit] at hc
      exact ih _ hfit (fun t ht => hs t (List.mem_cons_of_mem s ht)) c hc
    · rw [if_neg hfit] at hc
      rcases List.mem_append.mp hc with h | h
      · by_cases hcc : cur.content = []
        · rw [if_pos hcc] at h
          exact absurd h (List.not_mem_nil c)
        · rw [if_neg hcc] at h
          rw [List.mem_singleton.mp h]
          exact hcur
      · exact ih _ (hs s (List.mem_cons_self s ss))
          (fun t ht => hs t (List.mem_cons_of_mem s ht)) c h

/-- **C2** (amended).  The token budget is enforced on the accumulator's
running counter — the sum of the appended parts' individual estimates —
not on the re-measured estimate of the joined content: with overlap seeding
disabled the counter never exceeds `max_chunk_tokens` at any point of the
packing fold, and every sub-chunk produced from an oversize segment stays
within the budget whenever each of its sentences does; the re-measured
`estimate_tokens(chunk.content)` of an emitted chunk may nevertheless exceed
`max_chunk_tokens`, because the blank-line and space separators joined into
the content are never charged against the budget. -/
theorem claim_C2_amended :
    (∀ (config : Config) (lang : String) (segments : List Segment),
        config.overlapTokens = 0 →
        (packFold config lang segments).current.tokens ≤ config.maxChunkTokens) ∧
    (∀ (config : Config) (lang : String) (seg : Segment),
        (∀ s ∈ sentencesOf lang seg.content, estimateTokens s ≤ config.maxChunkTokens) →
        ∀ c ∈ splitLongSegment seg config lang, c.tokens ≤ config.maxChunkTokens) := by
  constructor
  · intro config lang segments h0
    exact packFoldGo_tokens_le config lang h0 segments ⟨[], initRaw⟩ (by simp [initRaw])
  · intro config lang seg hs
    exact slsGo_tokens_le seg.type seg.importance config (sentencesOf lang seg.content) _
      (by simp) hs

theorem claim_C2_witness :
    (⟨2, 0, 0⟩ : Config).overlapTokens = 0 ∧
    (packFold ⟨2, 0, 0⟩ "en" (identifyLegalStructure "1. a\n2. b".toList "en")).current.tokens ≤
      (⟨2, 0, 0⟩ : Config).maxChunkTokens ∧
    (∀ s ∈ sentencesOf "en" "A. B. C.".toList,
        estimateTokens s ≤ (⟨2, 0, 0⟩ : Config).maxChunkTokens) ∧
    (∀ c ∈ splitLongSegment ⟨"content", "A. B. C.".toList, "normal"⟩ ⟨2, 0, 0⟩ "en",
        c.tokens ≤ (⟨2, 0, 0⟩ : Config).maxChunkTokens) :=
  ⟨rfl, claim_C2_amended.1 ⟨2, 0, 0⟩ "en" _ rfl, by decide,
   claim_C2_amended.2 ⟨2, 0, 0⟩ "en" ⟨"content", "A. B. C.".toList, "normal"⟩ (by decide)⟩

/-- `sortByLevel` output is sorted by descending level rank. -/
theorem sortByLevel_sorted (l : List Risk) : List.Sorted RiskLE (sortByLevel l) := by
  haveI : IsTotal Risk (fun a b => levelRank b.level ≤ levelRank a.level) :=
    ⟨fun a b => (le_total (levelRank a.level) (levelRank b.level)).symm⟩
  haveI : IsTrans Risk (fun a b => levelRank b.level ≤ levelRank a.level) :=
    ⟨fun _ _ _ hab hbc => le_trans hbc hab⟩
  exact List.sorted_insertionSort (fun a b => levelRank b.level ≤ levelRank a.level) l

/-- `sortByLevel` permutes its input, so key distinctness survives it. -/
theorem sortByLevel_keysDistinct (l : List Risk) (h : KeysDistinct l) :
    KeysDistinct (sortByLevel l) := by
  unfold KeysDistinct at h ⊢
  have hperm : (sortByLevel l).Perm l := by
    unfold sortByLevel
    exact List.perm_insertionSort _ l
  exact (List.Perm.pairwise_iff (fun hxy e => hxy e.symm) hperm).mpr h

/-- The seen-set loop produces pairwise-distinct keys, all outside the
initial seen-set. -/
theorem dedupRisksGo_pairwise (l : List Risk) :
    ∀ seen : List (List Char),
      KeysDistinct (dedupRisksGo l seen) ∧
        ∀ r ∈ dedupRisksGo l seen, riskKey r ∉ seen := by
  induction l with
  | nil =>
    intro seen
    exact ⟨List.Pairwise.nil, by simp [dedupRisksGo]⟩
  | cons r rs ih =>
    intro seen
    unfold dedupRisksGo
    by_cases hcond : riskKey r ∉ seen ∧ r.title ≠ "" ∧ r.title ≠ "未命名风险"
    · rw [if_pos hcond]
      obtain ⟨ih1, ih2⟩ := ih (riskKey r :: seen)
      refine ⟨List.Pairwise.cons (fun b hb => ?_) ih1, fun x hx => ?_⟩
      · have hnb := ih2 b hb
        exact fun heq => hnb (heq ▸ List.mem_cons_self _ _)
      · rcases List.mem_cons.mp hx with h | h
        · rw [h]
          exact hcond.1
        · exact fun hmem => ih2 x h (List.mem_cons_of_mem _ hmem)
    · rw [if_neg hcond]
      exact ih seen

/-- The risk list of the success path, by branch. -/
theorem consolidateSuccess_risks (result : LLMResult) (cs : List ChunkResult) :
    (consolidateSuccess result cs).risks =
      if consolidatedRisksOf result = [] then
        sortByLevel (dedupRisks (((chunkFlatRisks cs).map normChunkRisk).filter validRisk))
      else sortByLevel (consolidatedRisksOf result) := rfl

/-- **C3** (counterexample).  When the consolidation model returns the same
valid risk twice, the success path keeps both: the emitted report contains
two risks with the same `(title, clause[:50])` pair, because only the
fallback and the `consolidateAnalysis` catch path deduplicate. -/
theorem claim_C3_counterexample :
    ((consolidateSuccess
          ⟨some 80, some "low",
           some [⟨some "high", some "管辖权风险", some "1234567890".toList,
                  some "123456789012345678901234567890".toList, none, none, none, none⟩,
                 ⟨some "high", some "管辖权风险", some "1234567890".toList,
                  some "123456789012345678901234567890".toList, none, none, none, none⟩],
           some "可签署"⟩ []).risks.map
        (fun r => (r.title, r.clause.take 50))) =
      [("管辖权风险", "1234567890".toList), ("管辖权风险", "1234567890".toList)] := by
  decide

/-- **C3** (amended).  Every modelled risk list is sorted by level with high
before medium before low; key deduplication, however, holds only where the
source deduplicates — on the chunk-fallback branch of the success path and
on the `consolidateAnalysis` degraded path — while the success path with
surviving consolidated risks and the route-level degraded path only sort. -/
theorem claim_C3_amended :
    (∀ (result : LLMResult) (cs : List ChunkResult),
        List.Sorted RiskLE (consolidateSuccess result cs).risks) ∧
    (∀ (result : LLMResult) (cs : List ChunkResult),
        consolidatedRisksOf result = [] →
        KeysDistinct (consolidateSuccess result cs).risks) ∧
    (∀ cs : List ChunkResult,
        List.Sorted RiskLE (consolidateDegraded cs).risks ∧
          KeysDistinct (consolidateDegraded cs).risks) ∧
    (∀ cs : List ChunkResult, List.Sorted RiskLE (analyzeSyncDegraded cs).risks) := by
  refine ⟨fun result cs => ?_, fun result cs h => ?_, fun cs => ⟨?_, ?_⟩, fun cs => ?_⟩
  · rw [consolidateSuccess_risks]
    split_ifs <;> exact sortByLevel_sorted _
  · rw [consolidateSuccess_risks, if_pos h]
    exact sortByLevel_keysDistinct _ (dedupRisksGo_pairwise _ []).1
  · exact sortByLevel_sorted _
  · exact sortByLevel_keysDistinct _ (dedupRisksGo_pairwise _ []).1
  · exact sortByLevel_sorted _

theorem claim_C3_witness :
    consolidatedRisksOf ⟨some 70, none, none, none⟩ = [] ∧
    KeysDistinct
      (consolidateSuccess ⟨some 70, none, none, none⟩
          [⟨some 70,
            some [⟨some "high", some "管辖权风险", some "1234567890".toList,
                   some "123456789012345678901234567890".toList, none, none, none, none⟩,
                  ⟨some "high", some "管辖权风险", some "1234567890".toList,
                   some "123456789012345678901234567890".toList, none, none, none,
                   none⟩]⟩]).risks :=
  ⟨by decide, claim_C3_amended.2.1 _ _ (by decide)⟩

/-! ### Overlap suffix machinery (claim C7) -/

theorem strip_append (a b : List Char) : strip (a ++ b) = strip a ++ strip b :=
  List.filter_append a b

/-- The pieces of the `extractOverlap` split cover the whole content up to
whitespace: only whitespace (the consumed separators) is lost. -/
theorem stGo_strip (l : List Char) :
    ∀ (postTerm : Bool) (acc : List Char),
      ((stGo l postTerm acc).map strip).flatten = strip acc.reverse ++ strip l := by
  induction l with
  | nil =>
    intro postTerm acc
    simp [stGo, strip]
  | cons c rest ih =>
    intro postTerm acc
    unfold stGo
    by_cases h1 : postTerm && isWS c
    · rw [if_pos h1, ih true acc]
      have hws : isWS c = true := by
        simp only [Bool.and_eq_true] at h1
        exact h1.2
      simp [strip, List.filter_cons, hws]
    · rw [if_neg h1]
      by_cases h2 : isOvEnder c
      · rw [if_pos h2]
        simp only [List.map_cons, List.flatten_cons]
        rw [ih true []]
        rw [strip_append, show c :: rest = [c] ++ rest from rfl, strip_append]
        simp [strip, List.append_assoc]
      · rw [if_neg h2, ih false (c :: acc)]
        rw [List.reverse_cons, strip_append, show c :: rest = [c] ++ rest from rfl,
          strip_append, List.append_assoc]

theorem splitOv_strip (l : List Char) :
    ((splitOvSentences l).map strip).flatten = strip l := by
  have h := stGo_strip l false []
  simpa [splitOvSentences, strip] using h

/-- The backwards collection loop returns the space-joined concatenation of
some suffix of the pieces (up to whitespace). -/
theorem ovGo_strip (target : ℕ) (revPieces : List (List Char)) :
    ∀ (tok : ℕ) (acc : List Char),
      ∃ j, strip (ovGo target revPieces tok acc) =
        ((revPieces.take j).reverse.map strip).flatten ++ strip acc := by
  induction revPieces with
  | nil =>
    intro tok acc
    exact ⟨0, by simp [ovGo]⟩
  | cons p ps ih =>
    intro tok acc
    unfold ovGo
    by_cases h : tok < target
    · rw [if_pos h]
      obtain ⟨j, hj⟩ := ih (tok + estimateTokens p) (p ++ (if acc = [] then [] else ' ' :: acc))
      refine ⟨j + 1, ?_⟩
      rw [hj]
      have hacc : strip (p ++ (if acc = [] then [] else ' ' :: acc)) = strip p ++ strip acc := by
        by_cases ha : acc = []
        · simp [ha, strip_append, strip]
        · rw [if_neg ha, strip_append]
          have : strip (' ' :: acc) = strip acc := by
            simp [strip, List.filter_cons, isWS]
          rw [this]
      rw [hacc]
      simp only [List.take_succ_cons, List.reverse_cons, List.map_append, List.flatten_append]
      simp [List.append_assoc]
    · rw [if_neg h]
      exact ⟨0, by simp⟩

/-- The overlap `extractOverlap` produces is always a suffix of the source
content modulo whitespace. -/
theorem extractOverlap_strip_suffix (content : List Char) (target : ℕ) :
    strip (extractOverlap content target) <:+ strip content := by
  unfold extractOverlap
  obtain ⟨j, hj⟩ := ovGo_strip target (splitOvSentences content).reverse 0 []
  have hS : ((splitOvSentences content).reverse.take j).reverse <:+ splitOvSentences content := by
    refine List.reverse_prefix.mp ?_
    rw [List.reverse_reverse]
    exact List.take_prefix _ _
  rw [hj, ← splitOv_strip content]
  obtain ⟨T, hT⟩ := hS
  rw [show strip ([] : List Char) = [] from rfl, List.append_nil]
  refine ⟨(T.map strip).flatten, ?_⟩
  rw [← List.flatten_append, ← List.map_append, hT]

/-! ### Overlap chain invariant (claim C7) -/

theorem finalizeChunk_content (c : RawChunk) (i : ℕ) :
    (finalizeChunk c i).content = c.content := rfl

theorem finalizeChunk_hasOverlap (c : RawChunk) (i : ℕ) :
    (finalizeChunk c i).metadata.hasOverlap = c.hasOverlap := rfl

theorem createOverlapChunk_of_empty (prev : RawChunk) (config : Config)
    (h : prev.content = []) : createOverlapChunk prev config = initRaw := by
  unfold createOverlapChunk
  rw [if_pos h]

theorem createOverlapChunk_eq (prev : RawChunk) (config : Config) (hc : prev.content ≠ []) :
    createOverlapChunk prev config =
      ⟨if extractOverlap prev.content config.overlapTokens = [] then []
        else marker ++ extractOverlap prev.content config.overlapTokens,
       estimateTokens (extractOverlap prev.content config.overlapTokens), [], "normal",
       !(extractOverlap prev.content config.overlapTokens).isEmpty⟩ := by
  unfold createOverlapChunk
  rw [if_neg hc]

/-- An overlap-carrying seed starts with the marker followed by the overlap
extracted from the previous accumulator's content. -/
theorem createOverlapChunk_spec (prev : RawChunk) (config : Config)
    (h : (createOverlapChunk prev config).hasOverlap = true) :
    prev.content ≠ [] ∧
      (createOverlapChunk prev config).content =
        marker ++ extractOverlap prev.content config.overlapTokens := by
  by_cases hc : prev.content = []
  · rw [createOverlapChunk_of_empty prev config hc] at h
    exact absurd h (by decide)
  · rw [createOverlapChunk_eq prev config hc] at h ⊢
    have hov : extractOverlap prev.content config.overlapTokens ≠ [] := by
      simpa [List.isEmpty_iff] using h
    exact ⟨hc, by simp [hov]⟩

theorem flushIf_chain (config : Config) (st : PackState)
    (hch : List.Chain' (OverlapRel config) st.chunks)
    (hcur : CurOk config st.chunks st.current) :
    List.Chain' (OverlapRel config) (flushIf st) := by
  unfold flushIf
  split_ifs with hc
  · exact hch
  · rw [List.chain'_append]
    refine ⟨hch, List.chain'_singleton _, fun x hx y hy => ?_⟩
    have hy' : finalizeChunk st.current st.chunks.length = y := by simpa using hy
    subst hy'
    intro hov
    obtain ⟨prev, rest, hlast, hcontent⟩ := hcur hov
    have hx' : prev = x := by
      rw [hlast] at hx
      simpa using hx
    subst hx'
    exact ⟨rest, hcontent⟩

theorem flushIf_getLast (st : PackState) (hc : st.current.content ≠ []) :
    (flushIf st).getLast? = some (finalizeChunk st.current st.chunks.length) := by
  unfold flushIf
  rw [if_neg hc, List.getLast?_concat]

theorem finalizeList_mem (subs : List RawChunk) :
    ∀ (i : ℕ) (c : Chunk),
      c ∈ finalizeList subs i → ∃ raw j, raw ∈ subs ∧ c = finalizeChunk raw j := by
  induction subs with
  | nil => intro i c hc; exact absurd hc (List.not_mem_nil c)
  | cons r rs ih =>
    intro i c hc
    rcases List.mem_cons.mp hc with h | h
    · exact ⟨r, i, List.mem_cons_self r rs, h⟩
    · obtain ⟨raw, j, hraw, hcj⟩ := ih (i + 1) c h
      exact ⟨raw, j, List.mem_cons_of_mem r hraw, hcj⟩

theorem finalizeList_getLast (subs : List RawChunk) :
    ∀ (i : ℕ) (lastSub : RawChunk), subs.getLast? = some lastSub →
      ∃ j, (finalizeList subs i).getLast? = some (finalizeChunk lastSub j) := by
  induction subs with
  | nil => intro i lastSub h; exact absurd h (by simp)
  | cons r rs ih =>
    intro i lastSub h
    cases rs with
    | nil =>
      have hr : r = lastSub := by simpa using h
      subst hr
      exact ⟨i, rfl⟩
    | cons r2 rs2 =>
      rw [List.getLast?_cons_cons] at h
      obtain ⟨j, hj⟩ := ih (i + 1) lastSub h
      refine ⟨j, ?_⟩
      show (finalizeChunk r i :: finalizeList (r2 :: rs2) (i + 1)).getLast? = _
      rw [show finalizeList (r2 :: rs2) (i + 1) =
            finalizeChunk r2 (i + 1) :: finalizeList rs2 (i + 2) from rfl] at hj ⊢
      rw [List.getLast?_cons_cons]
      exact hj

theorem chain'_noOverlap (config : Config) (l : List Chunk)
    (h : ∀ c ∈ l, c.metadata.hasOverlap = false) :
    List.Chain' (OverlapRel config) l := by
  induction l with
  | nil => exact List.chain'_nil
  | cons a rest ih =>
    rw [List.chain'_cons']
    refine ⟨fun y hy hov => ?_, ih fun c hc => h c (List.mem_cons_of_mem a hc)⟩
    have hf : y.metadata.hasOverlap = false :=
      h y (List.mem_cons_of_mem a (List.mem_of_mem_head? hy))
    rw [hf] at hov
    exact absurd hov (by decide)

theorem slsGo_hasOverlap (ty imp : String) (config : Config) :
    ∀ (sents : List (List Char)) (cur : RawChunk), cur.hasOverlap = false →
      ∀ c ∈ slsGo ty imp config sents cur, c.hasOverlap = false := by
  intro sents
  induction sents with
  | nil =>
    intro cur hcur c hc
    unfold slsGo at hc
    split at hc
    · exact absurd hc (List.not_mem_nil c)
    · rw [List.mem_singleton.mp hc]
      exact hcur
  | cons s ss ih =>
    intro cur hcur c hc
    unfold slsGo at hc
    by_cases hfit : cur.tokens + estimateTokens s ≤ config.maxChunkTokens
    · rw [if_pos hfit] at hc
      refine ih _ ?_ c hc
      exact hcur
    · rw [if_neg hfit] at hc
      rcases List.mem_append.mp hc with h | h
      · by_cases hcc : cur.content = []
        · rw [if_pos hcc] at h
          exact absurd h (List.not_mem_nil c)
        · rw [if_neg hcc] at h
          rw [List.mem_singleton.mp h]
          exact hcur
      · exact ih _ rfl c h

theorem splitLongSegment_hasOverlap (seg : Segment) (config : Config) (lang : String) :
    ∀ c ∈ splitLongSegment seg config lang, c.hasOverlap = false :=
  slsGo_hasOverlap seg.type seg.importance config (sentencesOf lang seg.content) _ rfl

theorem packStep_inv (config : Config) (lang : String) (st : PackState) (seg : Segment)
    (hch : List.Chain' (OverlapRel config) st.chunks)
    (hcur : CurOk config st.chunks st.current) :
    List.Chain' (OverlapRel config) (packStep config lang st seg).chunks ∧
      CurOk config (packStep config lang st seg).chunks
        (packStep config lang st seg).current := by
  unfold packStep
  by_cases h1 : estimateTokens seg.content > config.maxChunkTokens
  · rw [if_pos h1]
    dsimp only
    constructor
    · rw [List.chain'_append]
      refine ⟨flushIf_chain config st hch hcur, ?_, ?_⟩
      · refine chain'_noOverlap config _ fun c hc => ?_
        obtain ⟨raw, j, hraw, rfl⟩ := finalizeList_mem _ _ c hc
        rw [finalizeChunk_hasOverlap]
        exact splitLongSegment_hasOverlap seg config lang raw hraw
      · intro x hx y hy
        obtain ⟨raw, j, hraw, rfl⟩ := finalizeList_mem _ _ y (List.mem_of_mem_head? hy)
        intro hov
        rw [finalizeChunk_hasOverlap, splitLongSegment_hasOverlap seg config lang raw hraw]
          at hov
        exact absurd hov (by decide)
    · cases hl : (splitLongSegment seg config lang).getLast? with
      | none =>
        exact fun hov => absurd hov Bool.false_ne_true
      | some lastSub =>
        intro hov
        obtain ⟨hnc, hcontent⟩ := createOverlapChunk_spec lastSub config hov
        obtain ⟨j, hj⟩ := finalizeList_getLast _ (flushIf st).length lastSub hl
        refine ⟨finalizeChunk lastSub j, [], ?_, ?_⟩
        · rw [List.getLast?_append, hj]
          rfl
        · rw [List.append_nil, finalizeChunk_content]
          exact hcontent
  · rw [if_neg h1]
    by_cases h2 : st.current.tokens + estimateTokens seg.content ≤ config.maxChunkTokens
    · rw [if_pos h2]
      refine ⟨hch, fun hov => ?_⟩
      obtain ⟨prev, rest, hlast, hcontent⟩ := hcur hov
      have hne : st.current.content ≠ [] := by
        rw [hcontent]
        simp [marker]
      refine ⟨prev, rest ++ "\n\n".toList ++ seg.content, hlast, ?_⟩
      show st.current.content ++
          (if st.current.content = [] then [] else "\n\n".toList) ++ seg.content = _
      rw [if_neg hne, hcontent]
      simp [List.append_assoc]
    · rw [if_neg h2]
      dsimp only
      refine ⟨flushIf_chain config st hch hcur, fun hov => ?_⟩
      obtain ⟨hnc, hcontent⟩ := createOverlapChunk_spec st.current config hov
      have hsne : (createOverlapChunk st.current config).content ≠ [] := by
        rw [hcontent]
        simp [marker]
      refine ⟨finalizeChunk st.current st.chunks.length, "\n\n".toList ++ seg.content,
        flushIf_getLast st hnc, ?_⟩
      show (createOverlapChunk st.current config).content ++
          (if (createOverlapChunk st.current config).content = [] then []
            else "\n\n".toList) ++ seg.content = _
      rw [if_neg hsne, hcontent, finalizeChunk_content]
      simp [List.append_assoc]

theorem packFold_inv (config : Config) (lang : String) (segments : List Segment) :
    List.Chain' (OverlapRel config) (packFold config lang segments).chunks ∧
      CurOk config (packFold config lang segments).chunks
        (packFold config lang segments).current := by
  unfold packFold
  suffices h : ∀ (segs : List Segment) (st : PackState),
      List.Chain' (OverlapRel config) st.chunks → CurOk config st.chunks st.current →
      List.Chain' (OverlapRel config) (segs.foldl (packStep config lang) st).chunks ∧
        CurOk config (segs.foldl (packStep config lang) st).chunks
          (segs.foldl (packStep config lang) st).current by
    exact h segments ⟨[], initRaw⟩ List.chain'_nil (fun hov => absurd hov (by decide))
  intro segs
  induction segs with
  | nil => intro st hc1 hc2; exact ⟨hc1, hc2⟩
  | cons s ss ih =>
    intro st hc1 hc2
    obtain ⟨h1', h2'⟩ := packStep_inv config lang st s hc1 hc2
    exact ih _ h1' h2'

theorem finalFlush_chain (config : Config) (st : PackState)
    (hch : List.Chain' (OverlapRel config) st.chunks)
    (hcur : CurOk config st.chunks st.current) :
    List.Chain' (OverlapRel config) (finalFlush config st) := by
  unfold finalFlush
  split_ifs with h1 h2
  · rw [List.chain'_append]
    refine ⟨hch, List.chain'_singleton _, fun x hx y hy => ?_⟩
    have hy' : finalizeChunk st.current st.chunks.length = y := by simpa using hy
    subst hy'
    intro hov
    obtain ⟨prev, rest, hlast, hcontent⟩ := hcur hov
    have hx' : prev = x := by
      rw [hlast] at hx
      simpa using hx
    subst hx'
    exact ⟨rest, hcontent⟩
  · unfold mergeResidualIntoLast
    cases hl : st.chunks.getLast? with
    | none => exact hch
    | some lastChunk =>
      have hne : st.chunks ≠ [] := h2.2
      have hlast_eq : st.chunks.getLast hne = lastChunk := by
        have hq := List.getLast?_eq_getLast st.chunks hne
        rw [hl] at hq
        exact (Option.some.injEq _ _).mp hq.symm
      have hsplit : st.chunks.dropLast ++ [lastChunk] = st.chunks := by
        rw [← hlast_eq]
        exact List.dropLast_append_getLast hne
      rw [← hsplit] at hch
      rw [List.chain'_append] at hch
      obtain ⟨hd, _, hbd⟩ := hch
      rw [List.chain'_append]
      refine ⟨hd, List.chain'_singleton _, fun x hx y hy => ?_⟩
      have hy' : (⟨lastChunk.content ++ "\n\n".toList ++ st.current.content,
          { lastChunk.metadata with
              tokens := estimateTokens
                (lastChunk.content ++ "\n\n".toList ++ st.current.content) }⟩ : Chunk) = y := by
        simpa using hy
      subst hy'
      intro hov
      obtain ⟨rest, hcontent⟩ := hbd x hx lastChunk (by simp) hov
      refine ⟨rest ++ "\n\n".toList ++ st.current.content, ?_⟩
      show lastChunk.content ++ "\n\n".toList ++ st.current.content = _
      rw [hcontent]
      simp [List.append_assoc]
  · exact hch

/-- **C7** (counterexample).  With `max_chunk_tokens = 4`,
`overlap_tokens = 2`, `min_chunk_tokens = 0`, the text
`"甲\n\n乙。\n第二条 丁"` produces two chunks whose second carries
`has_overlap` and begins with the marker — but the seeded overlap
`甲\n\n乙。` itself contains a blank line, so the region up to the first
blank line (`甲`) is not a whitespace-modulo suffix of the first chunk's
content `甲\n\n乙。`. -/
theorem claim_C7_counterexample :
    ((smartChunk "甲\n\n乙。\n第二条 丁".toList ⟨4, 2, 0⟩).map
        (fun c => (c.content, c.metadata.hasOverlap))) =
      [("甲\n\n乙。".toList, false),
       ("[上文续] 甲\n\n乙。\n\n第二条 丁".toList, true)] ∧
    (strip (upToBlankLine
          (("[上文续] 甲\n\n乙。\n\n第二条 丁".toList).drop marker.length))).isSuffixOf
        (strip "甲\n\n乙。".toList) = false := by
  constructor <;> decide

/-- **C7** (amended).  For consecutive chunks `(i, i+1)` of any `smartChunk`
run where chunk `i+1` has `has_overlap`, chunk `i+1`'s content is the
literal marker `[上文续] `, then exactly the overlap `extractOverlap` drew
from chunk `i`'s content, then the later-appended material — and that
overlap is always a suffix of chunk `i`'s content modulo whitespace.  (The
claim's "text after the marker up to the first blank line" does not always
recover this overlap, because the overlap itself may contain a blank line —
see the counterexample.) -/
theorem claim_C7_amended :
    (∀ (text : List Char) (config : Config),
        List.Chain' (OverlapRel config) (smartChunk text config)) ∧
    (∀ (content : List Char) (target : ℕ),
        strip (extractOverlap content target) <:+ strip content) := by
  refine ⟨fun text config => ?_, extractOverlap_strip_suffix⟩
  obtain ⟨h1, h2⟩ := packFold_inv config (detectLanguage text)
    (identifyLegalStructure text (detectLanguage text))
  exact finalFlush_chain config _ h1 h2

theorem claim_C7_witness :
    List.Chain' (OverlapRel ⟨4, 2, 0⟩)
      (smartChunk "甲\n\n乙。\n第二条 丁".toList ⟨4, 2, 0⟩) ∧
    strip (extractOverlap "甲。乙。".toList 1) <:+ strip "甲。乙。".toList :=
  ⟨claim_C7_amended.1 "甲\n\n乙。\n第二条 丁".toList ⟨4, 2, 0⟩,
   claim_C7_amended.2 "甲。乙。".toList 1⟩

end AC
